import Mathlib

/-!
Shallow embedding of `experiments/datasets/modelnet/modelnet.py`:
the repeat cache `CacheNPY` (its `__call__` and `check_trans` methods) and
the dataset iterator `ModelNet10` (its `__getitem__` and `__len__`).

Modelling conventions:
* An artifact is an opaque value of a type parameter `α`.
* The filesystem is abstracted per item: slot index `i` maps to a `Slot α`
  (`missing` = no file, `valid a` = a file that `np.load` reads back as `a`,
  `corrupt` = a file that exists but fails to deserialize).  The deterministic
  slot-path formula (`prefix + key + '_{i}.npy'`) is injective in `i` for a
  fixed item, so indexing slots by `i : Nat` is faithful for one item.
* The transform may be non-deterministic and may raise; it is modelled as a
  stream `transform : Nat → Option α` giving the result of the k-th invocation
  (`none` = the invocation raises).  An invocation counter is threaded through
  the call, so "number of transform invocations" is observable.
* `np.random.randint(repeat)` is modelled by passing the drawn value `rand`
  as an argument; numpy guarantees `rand < repeat`, which appears as a
  hypothesis where the randomized branch uses it.
* A raised exception that escapes the call is modelled by `none`.
-/

namespace ModelnetSpec

/-- On-disk state of one cache slot file for one item. -/
inductive Slot (α : Type) where
  | missing : Slot α
  | valid : α → Slot α
  | corrupt : Slot α
deriving DecidableEq, Repr

/-- `os.path.exists` applied to a slot path: true iff some file is there. -/
def slotExists {α : Type} : Slot α → Bool
  | Slot.missing => false
  | Slot.valid _ => true
  | Slot.corrupt => true

/-- `np.load` on a slot path: yields the artifact of a valid file; raises
(`OSError` / `FileNotFoundError`) on a corrupt or missing file, modelled as
`none`. -/
def npLoad {α : Type} : Slot α → Option α
  | Slot.valid a => some a
  | Slot.missing => none
  | Slot.corrupt => none

/-- The per-item filesystem view: slot index to slot state. -/
def SlotFs (α : Type) : Type := Nat → Slot α

/-- `np.save` on slot path `i`: (over)writes that one file with artifact `a`. -/
def npSave {α : Type} (fs : SlotFs α) (i : Nat) (a : α) : SlotFs α :=
  fun j => if j = i then Slot.valid a else fs j

/-- State threaded through a cache call: the slot files of the item and the
number of transform invocations made so far. -/
structure CallState (α : Type) where
  fs : SlotFs α
  calls : Nat

/-- Configuration of `CacheNPY.__init__`: number of repeat slots, selection
policy, and the transform (as an invocation stream).  The `prefix` string only
enters the slot-path formula, which the per-item slot indexing abstracts. -/
structure CacheNPY (α : Type) where
  rep : Nat
  pick_randomly : Bool
  transform : Nat → Option α

/-- `CacheNPY.check_trans`: call the transform inside `try`; on an exception
print a log line (I/O, not modelled) and `raise` again.  On success the state
records one more invocation. -/
def check_trans {α : Type} (transform : Nat → Option α) (s : CallState α) :
    Option (α × CallState α) :=
  match transform s.calls with
  | none => none
  | some a => some (a, { s with calls := s.calls + 1 })

/-- Line 61: `exists = [os.path.exists(npy_path.format(i)) for i in range(self.repeat)]`. -/
def existsVec {α : Type} (fs : SlotFs α) (n : Nat) : List Bool :=
  (List.range n).map (fun i => slotExists (fs i))

/-- A cache call returns a single artifact (randomized mode) or the list of
all `repeat` artifacts (exhaustive mode). -/
inductive CallOut (α : Type) where
  | one : α → CallOut α
  | many : List α → CallOut α
deriving DecidableEq, Repr

/-- Lines 70-74 (the randomized-mode recomputation block):
`img = self.check_trans(file_path); np.save(npy_path.format(exists.index(False)), img); return img`.
Python's `list.index(False)` is `List.indexOf false`; on every reachable path
the list contains `false`, so the out-of-range behaviour of `indexOf` (where
Python would raise `ValueError`) is never exercised. -/
def pickRecompute {α : Type} (c : CacheNPY α) (ex : List Bool) (s : CallState α) :
    Option (CallOut α × CallState α) :=
  match check_trans c.transform s with
  | none => none
  | some (img, s1) =>
      some (CallOut.one img, { s1 with fs := npSave s1.fs (ex.indexOf false) img })

/-- Lines 76-85 (the exhaustive-mode loop) over the remaining indices:
`try: img = np.load(...) except (OSError, FileNotFoundError): img = check_trans(...); np.save(...)`,
accumulating `output`. -/
def exhaustiveGo {α : Type} (transform : Nat → Option α) :
    List Nat → CallState α → List α → Option (List α × CallState α)
  | [], s, acc => some (acc.reverse, s)
  | i :: rest, s, acc =>
    match npLoad (s.fs i) with
    | some img => exhaustiveGo transform rest s (img :: acc)
    | none =>
      match check_trans transform s with
      | none => none
      | some (img, s1) =>
          exhaustiveGo transform rest { s1 with fs := npSave s1.fs i img } (img :: acc)

/-- `CacheNPY.__call__` (lines 56-85).  `rand` is the value
`np.random.randint(self.repeat)` would draw (it is only consulted in the
all-slots-exist randomized branch). -/
def cacheCall {α : Type} (c : CacheNPY α) (rand : Nat) (s : CallState α) :
    Option (CallOut α × CallState α) :=
  let ex := existsVec s.fs c.rep
  if c.pick_randomly && ex.all id then
    match npLoad (s.fs rand) with
    | some a => some (CallOut.one a, s)
    | none => pickRecompute c (ex.set rand false) s
  else if c.pick_randomly then
    pickRecompute c ex s
  else
    match exhaustiveGo c.transform (List.range c.rep) s [] with
    | none => none
    | some (out, s1) => some (CallOut.many out, s1)

/-- Python `str.split(sep)` for a one-character separator, on the character
list: splits at every occurrence of `sep`, keeping empty pieces, and yields
`[[]]` (Python `['']`) on the empty string. -/
def splitSep (sep : Char) : List Char → List (List Char)
  | [] => [[]]
  | c :: cs =>
    let r := splitSep sep cs
    if c = sep then [] :: r
    else
      match r with
      | [] => [[c]]
      | w :: ws => (c :: w) :: ws

/-- Python `s.split(sep)` on strings (structurally recursive so that concrete
instances evaluate; `String.splitOn` agrees but does not reduce). -/
def pySplit (s : String) (sep : Char) : List String :=
  (splitSep sep s.data).map (fun w => String.mk w)

/-- Python sequence indexing `l[index]` for `int` indices: a negative index is
offset by `len(l)`; an index that is still out of range raises `IndexError`,
modelled as `none`. -/
def pyGetElem {α : Type} (l : List α) (index : Int) : Option α :=
  let j : Int := if index < 0 then index + l.length else index
  if j < 0 then none else l.get? j.toNat

/-- `ModelNet10` after construction: the sorted list of item paths and the two
optional mapping functions (a `None` transform corresponds to `id` at
`β = String`, likewise for `target_transform`). -/
structure ModelNet10 (β γ : Type) where
  files : List String
  transform : String → β
  target_transform : String → γ

/-- `ModelNet10.__getitem__` (lines 114-124):
`img = self.files[index]; target = img.split(os.path.sep)[-3];`
then apply the two mapping functions and return the pair.  `os.path.sep` is
`"/"` on the posix layouts the spec describes.  An `IndexError` from either
subscript propagates (`none`). -/
def getitem {β γ : Type} (m : ModelNet10 β γ) (index : Int) : Option (β × γ) :=
  match pyGetElem m.files index with
  | none => none
  | some img =>
    match pyGetElem (pySplit img '/') (-3) with
    | none => none
    | some target => some (m.transform img, m.target_transform target)

/-- `ModelNet10.__len__` (lines 126-127). -/
def lenModelNet {β γ : Type} (m : ModelNet10 β γ) : Nat := m.files.length

/-- Concrete dataset used by witnesses: one item laid out as
`root/<label>/<split>/<item-file>`, both mappings left as identity (= `None`). -/
def exModel : ModelNet10 String String :=
  { files := ["root/chair/train/item1.ext"], transform := id, target_transform := id }

/-- A transform whose k-th invocation succeeds with value `100 + k`. -/
def trW : Nat → Option Nat := fun k => some (100 + k)

/-- A transform whose every invocation raises. -/
def trFailW : Nat → Option Nat := fun _ => none

/-- No slot file exists yet. -/
def fsAllMissing : SlotFs Nat := fun _ => Slot.missing

/-- Slots 0 and 1 hold valid artifacts 10 and 11. -/
def fsTwoValid : SlotFs Nat :=
  fun j => if j = 0 then Slot.valid 10 else if j = 1 then Slot.valid 11 else Slot.missing

/-- Slot 0 valid, slot 1 exists but is corrupt. -/
def fsOneCorrupt : SlotFs Nat :=
  fun j => if j = 0 then Slot.valid 10 else if j = 1 then Slot.corrupt else Slot.missing

/-- Slot 0 valid, every other slot missing. -/
def fsOneMissing : SlotFs Nat :=
  fun j => if j = 0 then Slot.valid 10 else Slot.missing

/-- Randomized cache over two slots. -/
def cRand2 : CacheNPY Nat := ⟨2, true, trW⟩

/-- Exhaustive cache over two slots. -/
def cExh2 : CacheNPY Nat := ⟨2, false, trW⟩

/-- Exhaustive cache over three slots. -/
def cExh3 : CacheNPY Nat := ⟨3, false, trW⟩

/-- Randomized cache over two slots with a failing transform. -/
def cRandF : CacheNPY Nat := ⟨2, true, trFailW⟩

/-- Exhaustive cache over one slot with a failing transform. -/
def cExhF : CacheNPY Nat := ⟨1, false, trFailW⟩

/-- State after a fresh exhaustive call of `cExh2` on an empty filesystem. -/
def sAfter2 : CallState Nat := ⟨npSave (npSave fsAllMissing 0 100) 1 101, 2⟩

/-- State after a fresh exhaustive call of `cExh3` on an empty filesystem. -/
def sAfter3 : CallState Nat := ⟨npSave (npSave (npSave fsAllMissing 0 100) 1 101) 2 102, 3⟩

/-! ## Helper lemmas about Python indexing -/

theorem pyGetElem_none_of_out {α : Type} (l : List α) (index : Int)
    (h : (l.length : Int) ≤ index ∨ index < -(l.length : Int)) :
    pyGetElem l index = none := by
  unfold pyGetElem
  rcases h with h | h
  · rw [if_neg (by omega : ¬ index < 0), if_neg (by omega : ¬ index < 0)]
    rw [List.get?_eq_none]
    omega
  · rw [if_pos (by omega : index < 0), if_pos (by omega : index + (l.length : Int) < 0)]

theorem pyGetElem_neg_wrap {α : Type} (l : List α) (index : Int)
    (h1 : -(l.length : Int) ≤ index) (h2 : index < 0) :
    pyGetElem l index = pyGetElem l (index + l.length) := by
  unfold pyGetElem
  rw [if_pos h2, if_neg (by omega : ¬ index + (l.length : Int) < 0),
      if_neg (by omega : ¬ index + (l.length : Int) < 0),
      if_neg (by omega : ¬ index + (l.length : Int) < 0)]

theorem pyGetElem_neg3 {α : Type} (l : List α) (d : α) (h : 3 ≤ l.length) :
    pyGetElem l (-3) = some (l.getD (l.length - 3) d) := by
  unfold pyGetElem
  rw [if_pos (by omega : (-3 : Int) < 0),
      if_neg (by omega : ¬ (-3 : Int) + (l.length : Int) < 0)]
  have hn : ((-3 : Int) + (l.length : Int)).toNat = l.length - 3 := by omega
  rw [hn, List.get?_eq_getElem?, List.getD_eq_getElem?_getD,
      List.getElem?_eq_getElem (by omega : l.length - 3 < l.length)]
  rfl

/-! ## Helper lemmas about the cache -/

theorem existsVec_length {α : Type} (fs : SlotFs α) (n : Nat) :
    (existsVec fs n).length = n := by
  simp [existsVec]

theorem existsVec_getElem {α : Type} (fs : SlotFs α) {n i : Nat}
    (hi : i < (existsVec fs n).length) :
    (existsVec fs n)[i] = slotExists (fs i) := by
  simp [existsVec]

theorem existsVec_all_true {α : Type} {fs : SlotFs α} {n : Nat}
    (h : (existsVec fs n).all id = true) : ∀ i, i < n → slotExists (fs i) = true := by
  intro i hi
  rw [List.all_eq_true] at h
  exact h (slotExists (fs i)) (by simp [existsVec]; exact ⟨i, hi, rfl⟩)

theorem existsVec_false_mem {α : Type} {fs : SlotFs α} {n : Nat}
    (h : (existsVec fs n).all id = false) : false ∈ existsVec fs n := by
  rw [List.all_eq_false] at h
  obtain ⟨b, hb, hnb⟩ := h
  cases b
  · exact hb
  · simp [id] at hnb

theorem indexOf_false_spec {l : List Bool} (h : false ∈ l) :
    l.indexOf false < l.length ∧
      l.get ⟨l.indexOf false, List.indexOf_lt_length.2 h⟩ = false ∧
      ∀ j (hj : j < l.indexOf false),
        l.get ⟨j, Nat.lt_trans hj (List.indexOf_lt_length.2 h)⟩ = true := by
  have hlt : l.indexOf false < l.length := List.indexOf_lt_length.2 h
  refine ⟨hlt, ?_, ?_⟩
  · have h1 := @List.findIdx_getElem _ (· == false) l hlt
    exact eq_of_beq h1
  · intro j hj
    have := @List.not_of_lt_findIdx _ (· == false) l j hj
    simpa using this

theorem indexOf_false_set {l : List Bool} {r : Nat}
    (hall : l.all id = true) (hr : r < l.length) :
    (l.set r false).indexOf false = r := by
  have hlen : r < (l.set r false).length := by simpa using hr
  show (l.set r false).findIdx (· == false) = r
  rw [List.findIdx_eq hlen]
  constructor
  · simp
  · intro j hj
    have hjr : r ≠ j := (Nat.ne_of_lt hj).symm
    rw [List.getElem_set_ne hjr]
    rw [List.all_eq_true] at hall
    have : l[j] = true := hall l[j] (List.getElem_mem _)
    simp [this]

theorem pickRecompute_none {α : Type} (c : CacheNPY α) (ex : List Bool)
    (s : CallState α) (ht : c.transform s.calls = none) :
    pickRecompute c ex s = none := by
  simp [pickRecompute, check_trans, ht]

theorem pickRecompute_eq {α : Type} (c : CacheNPY α) (ex : List Bool)
    (s : CallState α) (img : α) (ht : c.transform s.calls = some img) :
    pickRecompute c ex s =
      some (CallOut.one img, ⟨npSave s.fs (ex.indexOf false) img, s.calls + 1⟩) := by
  simp [pickRecompute, check_trans, ht]

theorem cacheCall_rand_hit {α : Type} (c : CacheNPY α) (rand : Nat) (s : CallState α)
    (a : α) (hp : c.pick_randomly = true)
    (hall : (existsVec s.fs c.rep).all id = true)
    (hload : npLoad (s.fs rand) = some a) :
    cacheCall c rand s = some (CallOut.one a, s) := by
  simp [cacheCall, hp, hall, hload]

theorem cacheCall_rand_loadfail {α : Type} (c : CacheNPY α) (rand : Nat)
    (s : CallState α) (hp : c.pick_randomly = true)
    (hall : (existsVec s.fs c.rep).all id = true)
    (hload : npLoad (s.fs rand) = none) :
    cacheCall c rand s = pickRecompute c ((existsVec s.fs c.rep).set rand false) s := by
  simp [cacheCall, hp, hall, hload]

theorem cacheCall_rand_notall {α : Type} (c : CacheNPY α) (rand : Nat)
    (s : CallState α) (hp : c.pick_randomly = true)
    (hall : (existsVec s.fs c.rep).all id = false) :
    cacheCall c rand s = pickRecompute c (existsVec s.fs c.rep) s := by
  simp [cacheCall, hp, hall]

theorem cacheCall_exhaustive {α : Type} (c : CacheNPY α) (rand : Nat)
    (s : CallState α) (hp : c.pick_randomly = false) :
    cacheCall c rand s =
      match exhaustiveGo c.transform (List.range c.rep) s [] with
      | none => none
      | some (out, s1) => some (CallOut.many out, s1) := by
  simp [cacheCall, hp]

theorem npLoad_valid {α : Type} {sl : Slot α} {a : α} (h : npLoad sl = some a) :
    sl = Slot.valid a := by
  cases sl <;> simp_all [npLoad]

theorem exhaustiveGo_all_valid {α : Type} (transform : Nat → Option α) (g : Nat → α)
    (idxs : List Nat) :
    ∀ (s : CallState α) (acc : List α),
      (∀ j ∈ idxs, s.fs j = Slot.valid (g j)) →
      exhaustiveGo transform idxs s acc = some (acc.reverse ++ idxs.map g, s) := by
  induction idxs with
  | nil => intro s acc _; simp [exhaustiveGo]
  | cons i rest ih =>
    intro s acc h
    have hi : s.fs i = Slot.valid (g i) := h i (by simp)
    have ihr := ih s (g i :: acc) (fun j hj => h j (by simp [hj]))
    simp [exhaustiveGo, hi, npLoad, ihr]

theorem exhaustiveGo_all_valid_ex {α : Type} (transform : Nat → Option α)
    (idxs : List Nat) :
    ∀ (s : CallState α) (acc : List α),
      (∀ j ∈ idxs, ∃ v, s.fs j = Slot.valid v) →
      ∃ out, exhaustiveGo transform idxs s acc = some (out, s) := by
  induction idxs with
  | nil => intro s acc _; exact ⟨acc.reverse, by simp [exhaustiveGo]⟩
  | cons i rest ih =>
    intro s acc h
    obtain ⟨v, hv⟩ := h i (by simp)
    obtain ⟨out, hout⟩ := ih s (v :: acc) (fun j hj => h j (by simp [hj]))
    exact ⟨out, by simp [exhaustiveGo, hv, npLoad, hout]⟩

theorem exhaustiveGo_preserves_valid {α : Type} (transform : Nat → Option α)
    (idxs : List Nat) :
    ∀ (s : CallState α) (acc out : List α) (s1 : CallState α),
      exhaustiveGo transform idxs s acc = some (out, s1) →
      ∀ j v, s.fs j = Slot.valid v → ∃ w, s1.fs j = Slot.valid w := by
  induction idxs with
  | nil =>
    intro s acc out s1 h j v hv
    simp [exhaustiveGo] at h
    exact ⟨v, h.2 ▸ hv⟩
  | cons i rest ih =>
    intro s acc out s1 h j v hv
    rw [exhaustiveGo] at h
    cases hl : npLoad (s.fs i) with
    | some img =>
      rw [hl] at h
      exact ih _ _ _ _ h j v hv
    | none =>
      rw [hl] at h
      cases ht : transform s.calls with
      | none => simp [check_trans, ht] at h
      | some img =>
        simp only [check_trans, ht] at h
        by_cases hji : j = i
        · exact ih _ _ _ _ h j img (by simp [npSave, hji])
        · exact ih _ _ _ _ h j v (by simpa [npSave, hji] using hv)

theorem exhaustiveGo_valid_after {α : Type} (transform : Nat → Option α)
    (idxs : List Nat) :
    ∀ (s : CallState α) (acc out : List α) (s1 : CallState α),
      exhaustiveGo transform idxs s acc = some (out, s1) →
      ∀ j ∈ idxs, ∃ w, s1.fs j = Slot.valid w := by
  induction idxs with
  | nil => intro s acc out s1 _ j hj; simp at hj
  | cons i rest ih =>
    intro s acc out s1 h j hj
    rw [exhaustiveGo] at h
    cases hl : npLoad (s.fs i) with
    | some img =>
      rw [hl] at h
      rcases List.mem_cons.1 hj with rfl | hjr
      · exact exhaustiveGo_preserves_valid transform rest _ _ _ _ h j img (npLoad_valid hl)
      · exact ih _ _ _ _ h j hjr
    | none =>
      rw [hl] at h
      cases ht : transform s.calls with
      | none => simp [check_trans, ht] at h
      | some img =>
        simp only [check_trans, ht] at h
        rcases List.mem_cons.1 hj with rfl | hjr
        · exact exhaustiveGo_preserves_valid transform rest _ _ _ _ h j img
            (by simp [npSave])
        · exact ih _ _ _ _ h j hjr

theorem exhaustiveGo_frame {α : Type} (transform : Nat → Option α)
    (idxs : List Nat) :
    ∀ (s : CallState α) (acc out : List α) (s1 : CallState α),
      exhaustiveGo transform idxs s acc = some (out, s1) →
      ∀ j, j ∉ idxs → s1.fs j = s.fs j := by
  induction idxs with
  | nil =>
    intro s acc out s1 h j _
    simp [exhaustiveGo] at h
    rw [← h.2]
  | cons i rest ih =>
    intro s acc out s1 h j hj
    have hji : j ≠ i := fun he => hj (he ▸ List.mem_cons_self i rest)
    have hjr : j ∉ rest := fun hm => hj (List.mem_cons_of_mem i hm)
    rw [exhaustiveGo] at h
    cases hl : npLoad (s.fs i) with
    | some img =>
      rw [hl] at h
      exact ih _ _ _ _ h j hjr
    | none =>
      rw [hl] at h
      cases ht : transform s.calls with
      | none => simp [check_trans, ht] at h
      | some img =>
        simp only [check_trans, ht] at h
        have := ih _ _ _ _ h j hjr
        simpa [npSave, hji] using this

theorem exhaustiveGo_fresh {α : Type} (transform : Nat → Option α) (f : Nat → α)
    (hf : ∀ k, transform k = some (f k)) (idxs : List Nat) :
    ∀ (s : CallState α) (acc : List α), idxs.Nodup →
      (∀ j ∈ idxs, s.fs j = Slot.missing) →
      ∃ s1,
        exhaustiveGo transform idxs s acc =
            some (acc.reverse ++ (List.range idxs.length).map (fun p => f (s.calls + p)), s1)
          ∧ s1.calls = s.calls + idxs.length
          ∧ (∀ j, j ∉ idxs → s1.fs j = s.fs j)
          ∧ (∀ p (hp : p < idxs.length),
              s1.fs (idxs.get ⟨p, hp⟩) = Slot.valid (f (s.calls + p))) := by
  induction idxs with
  | nil =>
    intro s acc _ _
    refine ⟨s, by simp [exhaustiveGo], by simp, fun j _ => rfl, fun p hp => absurd hp (by simp)⟩
  | cons i rest ih =>
    intro s acc hnd hmiss
    have hload : npLoad (s.fs i) = none := by
      rw [hmiss i (List.mem_cons_self i rest)]; rfl
    have hir : i ∉ rest := (List.nodup_cons.1 hnd).1
    have hstep : exhaustiveGo transform (i :: rest) s acc =
        exhaustiveGo transform rest
          ⟨npSave s.fs i (f s.calls), s.calls + 1⟩ (f s.calls :: acc) := by
      rw [exhaustiveGo, hload]
      simp only [check_trans, hf s.calls]
    have hmiss' : ∀ j ∈ rest, npSave s.fs i (f s.calls) j = Slot.missing := by
      intro j hj
      have hji : j ≠ i := fun he => hir (he ▸ hj)
      simp only [npSave, if_neg hji]
      exact hmiss j (List.mem_cons_of_mem i hj)
    obtain ⟨s1, heq, hcalls, hframe, hpersist⟩ :=
      ih ⟨npSave s.fs i (f s.calls), s.calls + 1⟩ (f s.calls :: acc) (List.nodup_cons.1 hnd).2
        hmiss'
    have hlist : (f s.calls :: acc).reverse ++
          (List.range rest.length).map
            (fun p => f ((⟨npSave s.fs i (f s.calls), s.calls + 1⟩ : CallState α).calls + p)) =
        acc.reverse ++ (List.range (i :: rest).length).map (fun p => f (s.calls + p)) := by
      rw [List.reverse_cons, List.length_cons, List.range_succ_eq_map]
      simp only [List.map_cons, List.map_map, Nat.add_zero, List.append_assoc,
        List.cons_append, List.nil_append]
      congr 2
      apply List.map_congr_left
      intro p _
      simp only [Function.comp_apply]
      show f (s.calls + 1 + p) = f (s.calls + (p + 1))
      exact congrArg f (by omega)
    refine ⟨s1, ?_, ?_, ?_, ?_⟩
    · rw [hstep, heq, hlist]
    · rw [hcalls]
      show s.calls + 1 + rest.length = s.calls + (rest.length + 1)
      omega
    · intro j hj
      have hji : j ≠ i := fun he => hj (he ▸ List.mem_cons_self i rest)
      have hjr : j ∉ rest := fun hm => hj (List.mem_cons_of_mem i hm)
      rw [hframe j hjr]
      simp [npSave, hji]
    · intro p hp
      match p with
      | 0 =>
        show s1.fs i = Slot.valid (f (s.calls + 0))
        rw [hframe i hir]
        simp [npSave]
      | q + 1 =>
        have hq : q < rest.length := by
          have h5 := hp
          simp [List.length_cons] at h5
          omega
        have h6 := hpersist q hq
        show s1.fs (rest.get ⟨q, hq⟩) = Slot.valid (f (s.calls + (q + 1)))
        rw [h6]
        have h7 : (⟨npSave s.fs i (f s.calls), s.calls + 1⟩ : CallState α).calls + q =
            s.calls + (q + 1) := by
          show s.calls + 1 + q = s.calls + (q + 1)
          omega
        rw [h7]

theorem exhaustiveGo_one_bad {α : Type} (transform : Nat → Option α) (i : Nat) (b : α)
    (g : Nat → α) (idxs : List Nat) :
    ∀ (s : CallState α) (acc : List α), idxs.Nodup → i ∈ idxs →
      (∀ j ∈ idxs, j ≠ i → s.fs j = Slot.valid (g j)) →
      npLoad (s.fs i) = none →
      transform s.calls = some b →
      exhaustiveGo transform idxs s acc =
        some (acc.reverse ++ idxs.map (fun j => if j = i then b else g j),
              ⟨npSave s.fs i b, s.calls + 1⟩) := by
  induction idxs with
  | nil => intro s acc _ hmem; simp at hmem
  | cons k rest ih =>
    intro s acc hnd hmem hval hload ht
    have hkr : k ∉ rest := (List.nodup_cons.1 hnd).1
    rcases List.mem_cons.1 hmem with rfl | hir
    · -- the head index is the failing slot
      have hstep : exhaustiveGo transform (i :: rest) s acc =
          exhaustiveGo transform rest ⟨npSave s.fs i b, s.calls + 1⟩ (b :: acc) := by
        rw [exhaustiveGo, hload]
        simp only [check_trans, ht]
      have hval' : ∀ j ∈ rest, npSave s.fs i b j = Slot.valid (g j) := by
        intro j hj
        have hjk : j ≠ i := fun he => hkr (he ▸ hj)
        simp only [npSave, if_neg hjk]
        exact hval j (List.mem_cons_of_mem i hj) hjk
      rw [hstep,
        exhaustiveGo_all_valid transform g rest ⟨npSave s.fs i b, s.calls + 1⟩ (b :: acc) hval']
      congr 2
      simp only [List.reverse_cons, List.append_assoc, List.cons_append, List.nil_append,
        List.map_cons, if_pos rfl]
      congr 2
      exact (List.map_congr_left (fun j hj => by
        have hjk : j ≠ i := fun he => hkr (he ▸ hj)
        simp [if_neg hjk])).symm
    · -- the head index is a valid slot; the failing one is further on
      have hki : k ≠ i := fun he => hkr (he ▸ hir)
      have hk : s.fs k = Slot.valid (g k) := hval k (List.mem_cons_self k rest) hki
      have hstep : exhaustiveGo transform (k :: rest) s acc =
          exhaustiveGo transform rest s (g k :: acc) := by
        rw [exhaustiveGo, hk]
        rfl
      rw [hstep, ih s (g k :: acc) (List.nodup_cons.1 hnd).2 hir
        (fun j hj hji => hval j (List.mem_cons_of_mem k hj) hji) hload ht]
      congr 2
      simp [List.reverse_cons, if_neg hki]

theorem pickRecompute_calls {α : Type} (c : CacheNPY α) (ex : List Bool)
    (s : CallState α) (out : CallOut α) (s1 : CallState α)
    (h : pickRecompute c ex s = some (out, s1)) : s1.calls = s.calls + 1 := by
  cases ht : c.transform s.calls with
  | none => rw [pickRecompute_none _ _ _ ht] at h; cases h
  | some img => rw [pickRecompute_eq _ _ _ _ ht] at h; cases h; rfl

/-! ## Claims about the repeat cache -/

/-- C1: a corrupt slot is recovered locally.  Randomized mode: with all slots
present and the randomly chosen slot corrupt, the call succeeds (no error
surfaces), the transform is invoked once, the fresh artifact is returned
(never the corrupt data), and exactly the corrupt slot is overwritten.
Exhaustive mode: with slot `i` corrupt and all other slots valid, the call
succeeds, recomputes and overwrites just index `i`, and the returned sequence
holds the valid artifacts plus the fresh one — never corrupt data. -/
theorem c1_corrupt_slot_recovered :
    (∀ (α : Type) (c : CacheNPY α) (rand : Nat) (s : CallState α) (img : α),
        c.pick_randomly = true → rand < c.rep →
        (existsVec s.fs c.rep).all id = true →
        s.fs rand = Slot.corrupt →
        c.transform s.calls = some img →
        cacheCall c rand s =
          some (CallOut.one img, ⟨npSave s.fs rand img, s.calls + 1⟩)) ∧
    (∀ (α : Type) (c : CacheNPY α) (rand : Nat) (s : CallState α) (i : Nat) (b : α)
        (g : Nat → α),
        c.pick_randomly = false → i < c.rep →
        s.fs i = Slot.corrupt →
        (∀ j, j < c.rep → j ≠ i → s.fs j = Slot.valid (g j)) →
        c.transform s.calls = some b →
        cacheCall c rand s =
          some (CallOut.many ((List.range c.rep).map (fun j => if j = i then b else g j)),
                ⟨npSave s.fs i b, s.calls + 1⟩)) := by
  constructor
  · intro α c rand s img hp hrand hall hcorr ht
    have hload : npLoad (s.fs rand) = none := by rw [hcorr]; rfl
    have hidx : ((existsVec s.fs c.rep).set rand false).indexOf false = rand :=
      indexOf_false_set hall (by rw [existsVec_length]; exact hrand)
    rw [cacheCall_rand_loadfail c rand s hp hall hload,
      pickRecompute_eq c _ s img ht, hidx]
  · intro α c rand s i b g hp hi hcorr hval ht
    have hload : npLoad (s.fs i) = none := by rw [hcorr]; rfl
    rw [cacheCall_exhaustive c rand s hp,
      exhaustiveGo_one_bad c.transform i b g (List.range c.rep) s []
        (List.nodup_range c.rep) (List.mem_range.2 hi)
        (fun j hj hji => hval j (List.mem_range.1 hj) hji) hload ht]
    simp

/-- C1 witness: concrete two-slot instances, slot 1 corrupt in both modes. -/
theorem c1_corrupt_slot_witness :
    cacheCall cRand2 1 ⟨fsOneCorrupt, 0⟩ =
        some (CallOut.one 100, ⟨npSave fsOneCorrupt 1 100, 0 + 1⟩) ∧
    cacheCall cExh2 0 ⟨fsOneCorrupt, 0⟩ =
        some (CallOut.many ((List.range cExh2.rep).map (fun j => if j = 1 then 100 else 10)),
              ⟨npSave fsOneCorrupt 1 100, 0 + 1⟩) := by
  constructor
  · exact c1_corrupt_slot_recovered.1 Nat cRand2 1 ⟨fsOneCorrupt, 0⟩ 100 rfl (by decide)
      (by decide) (by decide) rfl
  · exact c1_corrupt_slot_recovered.2 Nat cExh2 0 ⟨fsOneCorrupt, 0⟩ 1 100 (fun _ => 10) rfl
      (by decide) (by decide)
      (by
        intro j hj hji
        have hj2 : j < 2 := hj
        interval_cases j
        · rfl
        · exact absurd rfl hji)
      rfl

/-- C2: randomized mode with all slots present and a successful load of the
chosen slot returns the loaded artifact with the state unchanged (zero
transform invocations); and every randomized-mode call makes at most one
transform invocation. -/
theorem c2_randomized_hit_no_recompute :
    (∀ (α : Type) (c : CacheNPY α) (rand : Nat) (s : CallState α) (a : α),
        c.pick_randomly = true →
        (existsVec s.fs c.rep).all id = true →
        npLoad (s.fs rand) = some a →
        cacheCall c rand s = some (CallOut.one a, s)) ∧
    (∀ (α : Type) (c : CacheNPY α) (rand : Nat) (s : CallState α)
        (out : CallOut α) (s1 : CallState α),
        c.pick_randomly = true →
        cacheCall c rand s = some (out, s1) →
        s1.calls ≤ s.calls + 1) := by
  constructor
  · intro α c rand s a hp hall hload
    exact cacheCall_rand_hit c rand s a hp hall hload
  · intro α c rand s out s1 hp hcall
    by_cases hall : (existsVec s.fs c.rep).all id = true
    · cases hl : npLoad (s.fs rand) with
      | some a =>
        rw [cacheCall_rand_hit c rand s a hp hall hl] at hcall
        cases hcall
        omega
      | none =>
        rw [cacheCall_rand_loadfail c rand s hp hall hl] at hcall
        rw [pickRecompute_calls c _ s out s1 hcall]
    · have hallf : (existsVec s.fs c.rep).all id = false := by
        cases hb : (existsVec s.fs c.rep).all id
        · rfl
        · exact absurd hb hall
      rw [cacheCall_rand_notall c rand s hp hallf] at hcall
      rw [pickRecompute_calls c _ s out s1 hcall]

/-- C2 witness: two valid slots, chosen slot 1 loads; and the call made at
most one (here zero) invocation. -/
theorem c2_randomized_hit_witness :
    cacheCall cRand2 1 ⟨fsTwoValid, 0⟩ =
        some (CallOut.one 11, ⟨fsTwoValid, 0⟩) ∧
    (⟨fsTwoValid, 0⟩ : CallState Nat).calls ≤ (0 : Nat) + 1 := by
  constructor
  · exact c2_randomized_hit_no_recompute.1 Nat cRand2 1 ⟨fsTwoValid, 0⟩ 11 rfl (by decide)
      (by decide)
  · exact c2_randomized_hit_no_recompute.2 Nat cRand2 1 ⟨fsTwoValid, 0⟩
      (CallOut.one 11) ⟨fsTwoValid, 0⟩ rfl
      (c2_randomized_hit_no_recompute.1 Nat cRand2 1 ⟨fsTwoValid, 0⟩ 11 rfl (by decide)
        (by decide))

/-- C3: randomized mode with not all slots present invokes the transform on
the source, persists the fresh artifact to the lowest missing slot index
(`exists.index(False)`), and returns the freshly computed artifact itself.
The index written is below `repeat`, its slot did not exist, and every slot
below it existed.  (The after-a-failed-load half of the claim is the
randomized conjunct of C1, where the overwritten index is the corrupt one.) -/
theorem c3_fresh_to_first_missing_slot :
    ∀ (α : Type) (c : CacheNPY α) (rand : Nat) (s : CallState α) (img : α),
      c.pick_randomly = true →
      (existsVec s.fs c.rep).all id = false →
      c.transform s.calls = some img →
      cacheCall c rand s =
          some (CallOut.one img,
            ⟨npSave s.fs ((existsVec s.fs c.rep).indexOf false) img, s.calls + 1⟩)
        ∧ (existsVec s.fs c.rep).indexOf false < c.rep
        ∧ slotExists (s.fs ((existsVec s.fs c.rep).indexOf false)) = false
        ∧ ∀ j, j < (existsVec s.fs c.rep).indexOf false → slotExists (s.fs j) = true := by
  intro α c rand s img hp hall ht
  have hmem : false ∈ existsVec s.fs c.rep := existsVec_false_mem hall
  obtain ⟨hlt, hat, hbefore⟩ := indexOf_false_spec hmem
  have hlen := existsVec_length s.fs c.rep
  refine ⟨?_, by omega, ?_, ?_⟩
  · rw [cacheCall_rand_notall c rand s hp hall, pickRecompute_eq c _ s img ht]
  · rw [List.get_eq_getElem, existsVec_getElem] at hat
    exact hat
  · intro j hj
    have hb := hbefore j hj
    rw [List.get_eq_getElem, existsVec_getElem] at hb
    exact hb

/-- C3 witness: slot 0 exists, slot 1 missing; the fresh artifact goes to
index 1 (= `exists.index(False)`), slot 0 existed, slot 1 did not. -/
theorem c3_fresh_slot_witness :
    (cacheCall cRand2 0 ⟨fsOneMissing, 0⟩ =
        some (CallOut.one 100,
          ⟨npSave fsOneMissing ((existsVec fsOneMissing cRand2.rep).indexOf false) 100,
            0 + 1⟩))
      ∧ (existsVec fsOneMissing cRand2.rep).indexOf false < cRand2.rep
      ∧ slotExists (fsOneMissing ((existsVec fsOneMissing cRand2.rep).indexOf false)) = false
      ∧ slotExists (fsOneMissing 0) = true := by
  obtain ⟨h1, h2, h3, h4⟩ :=
    c3_fresh_to_first_missing_slot Nat cRand2 0 ⟨fsOneMissing, 0⟩ 100 rfl (by decide) rfl
  exact ⟨h1, h2, h3, h4 0 (by decide)⟩

/-- C4: exhaustive mode on an item with no pre-existing slot files (all
missing) succeeds, invokes the transform exactly `repeat` times, returns one
artifact per index for every index in `[0, repeat)` in index order (the `p`-th
returned artifact is the `p`-th invocation's result), and persists each
artifact under its own slot index; slots at or above `repeat` are untouched. -/
theorem c4_exhaustive_full_materialization :
    ∀ (α : Type) (c : CacheNPY α) (rand : Nat) (s : CallState α) (f : Nat → α),
      c.pick_randomly = false →
      (∀ k, c.transform k = some (f k)) →
      (∀ j, j < c.rep → s.fs j = Slot.missing) →
      (∃ out1 s1, cacheCall c rand s = some (out1, s1)) ∧
      (∀ (out : CallOut α) (s1 : CallState α),
        cacheCall c rand s = some (out, s1) →
          out = CallOut.many ((List.range c.rep).map (fun p => f (s.calls + p)))
          ∧ s1.calls = s.calls + c.rep
          ∧ (∀ p, p < c.rep → s1.fs p = Slot.valid (f (s.calls + p)))
          ∧ (∀ j, c.rep ≤ j → s1.fs j = s.fs j)) := by
  intro α c rand s f hp hf hmiss
  obtain ⟨s1, heq, hcalls, hframe, hpersist⟩ :=
    exhaustiveGo_fresh c.transform f hf (List.range c.rep) s []
      (List.nodup_range c.rep) (fun j hj => hmiss j (List.mem_range.1 hj))
  have heq2 : exhaustiveGo c.transform (List.range c.rep) s [] =
      some ((List.range c.rep).map (fun p => f (s.calls + p)), s1) := by
    rw [heq]
    simp [List.length_range]
  have hcall : cacheCall c rand s =
      some (CallOut.many ((List.range c.rep).map (fun p => f (s.calls + p))), s1) := by
    rw [cacheCall_exhaustive c rand s hp, heq2]
  constructor
  · exact ⟨_, s1, hcall⟩
  · intro out sx hx
    rw [hcall] at hx
    obtain ⟨ho, hs⟩ := Prod.ext_iff.1 (Option.some.inj hx)
    have hs2 : s1 = sx := hs
    subst hs2
    refine ⟨ho.symm, ?_, ?_, ?_⟩
    · rw [hcalls, List.length_range]
    · intro p hp2
      have hp3 : p < (List.range c.rep).length := by rw [List.length_range]; exact hp2
      have h6 := hpersist p hp3
      rw [List.get_eq_getElem, List.getElem_range] at h6
      exact h6
    · intro j hj
      exact hframe j (by rw [List.mem_range]; omega)

/-- C4 witness: `repeat = 3`, exhaustive, no pre-existing slots: the returned
sequence is the three invocation results `[100, 101, 102]`, the final state
made exactly 3 invocations, slot 1 holds its own artifact, slot 3 untouched. -/
theorem c4_full_materialization_witness :
    CallOut.many [100, 101, 102] =
        CallOut.many ((List.range cExh3.rep).map (fun p => 100 + (0 + p)))
      ∧ sAfter3.calls = 0 + cExh3.rep
      ∧ sAfter3.fs 1 = Slot.valid (100 + (0 + 1))
      ∧ sAfter3.fs 3 = fsAllMissing 3 := by
  have h := (c4_exhaustive_full_materialization Nat cExh3 0 ⟨fsAllMissing, 0⟩
    (fun k => 100 + k) rfl (fun k => rfl) (fun j hj => rfl)).2
    (CallOut.many [100, 101, 102]) sAfter3 rfl
  exact ⟨h.1, h.2.1, h.2.2.1 1 (by decide), h.2.2.2 3 (by decide)⟩

/-- C5: calling exhaustive-mode get twice with no intervening file change
makes zero transform invocations on the second call: the second call cannot
fail and returns with the state (including the invocation counter) exactly as
the first call left it.  The serializer round-trip contract is built into the
model (`npLoad (Slot.valid a) = some a`). -/
theorem c5_exhaustive_idempotent :
    ∀ (α : Type) (c : CacheNPY α) (r1 r2 : Nat) (s : CallState α)
      (out1 : CallOut α) (s1 : CallState α),
      c.pick_randomly = false →
      cacheCall c r1 s = some (out1, s1) →
      cacheCall c r2 s1 ≠ none ∧
      ∀ (out2 : CallOut α) (s2 : CallState α),
        cacheCall c r2 s1 = some (out2, s2) → s2 = s1 := by
  intro α c r1 r2 s out1 s1 hp h1
  rw [cacheCall_exhaustive c r1 s hp] at h1
  cases hgo : exhaustiveGo c.transform (List.range c.rep) s [] with
  | none => rw [hgo] at h1; cases h1
  | some pr =>
    obtain ⟨o, sx⟩ := pr
    rw [hgo] at h1
    have h1b : (some (CallOut.many o, sx) : Option (CallOut α × CallState α)) =
        some (out1, s1) := h1
    obtain ⟨-, hs⟩ := Prod.ext_iff.1 (Option.some.inj h1b)
    subst hs
    have hvalid := exhaustiveGo_valid_after c.transform (List.range c.rep) s [] o sx hgo
    obtain ⟨out2, h2⟩ := exhaustiveGo_all_valid_ex c.transform (List.range c.rep) sx []
      (fun j hj => hvalid j hj)
    constructor
    · rw [cacheCall_exhaustive c r2 sx hp, h2]
      simp
    · intro o2 s2 hx
      rw [cacheCall_exhaustive c r2 sx hp, h2] at hx
      have hx2 : (some (CallOut.many out2, sx) : Option (CallOut α × CallState α)) =
          some (o2, s2) := hx
      exact ((Prod.ext_iff.1 (Option.some.inj hx2)).2).symm

/-- C5 witness: after a fresh exhaustive call materialized both slots, a
second exhaustive call cannot fail and leaves the state untouched. -/
theorem c5_idempotent_witness :
    cacheCall cExh2 1 sAfter2 ≠ none ∧ sAfter2 = sAfter2 := by
  have h := c5_exhaustive_idempotent Nat cExh2 0 1 ⟨fsAllMissing, 0⟩
    (CallOut.many [100, 101]) sAfter2 rfl rfl
  exact ⟨h.1, h.2 (CallOut.many [100, 101]) sAfter2 rfl⟩

/-- C6: a call in either mode only ever writes slot files with index in
`[0, repeat)`: every slot at an index `≥ repeat` is exactly as before the
call, so the number of distinct slot files per item never exceeds `repeat`.
(`rand < repeat` holds for every value `np.random.randint(repeat)` draws.) -/
theorem c6_slot_indices_bounded :
    ∀ (α : Type) (c : CacheNPY α) (rand : Nat) (s : CallState α)
      (out : CallOut α) (s1 : CallState α),
      rand < c.rep →
      cacheCall c rand s = some (out, s1) →
      ∀ j, c.rep ≤ j → s1.fs j = s.fs j := by
  intro α c rand s out s1 hrand hcall j hj
  by_cases hp : c.pick_randomly = true
  · by_cases hall : (existsVec s.fs c.rep).all id = true
    · cases hl : npLoad (s.fs rand) with
      | some a =>
        rw [cacheCall_rand_hit c rand s a hp hall hl] at hcall
        cases hcall
        rfl
      | none =>
        rw [cacheCall_rand_loadfail c rand s hp hall hl] at hcall
        cases ht : c.transform s.calls with
        | none => rw [pickRecompute_none _ _ _ ht] at hcall; cases hcall
        | some img =>
          rw [pickRecompute_eq _ _ _ _ ht] at hcall
          have hidx : ((existsVec s.fs c.rep).set rand false).indexOf false = rand :=
            indexOf_false_set hall (by rw [existsVec_length]; exact hrand)
          cases hcall
          show npSave s.fs _ img j = s.fs j
          rw [hidx]
          have hne : j ≠ rand := by omega
          simp [npSave, hne]
    · have hallf : (existsVec s.fs c.rep).all id = false := by
        cases hb : (existsVec s.fs c.rep).all id
        · rfl
        · exact absurd hb hall
      rw [cacheCall_rand_notall c rand s hp hallf] at hcall
      cases ht : c.transform s.calls with
      | none => rw [pickRecompute_none _ _ _ ht] at hcall; cases hcall
      | some img =>
        rw [pickRecompute_eq _ _ _ _ ht] at hcall
        have hmem := existsVec_false_mem hallf
        have hlt : (existsVec s.fs c.rep).indexOf false < c.rep := by
          have h5 := List.indexOf_lt_length.2 hmem
          rwa [existsVec_length] at h5
        cases hcall
        show npSave s.fs _ img j = s.fs j
        have hne : j ≠ (existsVec s.fs c.rep).indexOf false := by omega
        simp [npSave, hne]
  · have hpf : c.pick_randomly = false := by
      cases hb : c.pick_randomly
      · rfl
      · exact absurd hb hp
    rw [cacheCall_exhaustive c rand s hpf] at hcall
    cases hgo : exhaustiveGo c.transform (List.range c.rep) s [] with
    | none => rw [hgo] at hcall; cases hcall
    | some pr =>
      obtain ⟨o, sx⟩ := pr
      rw [hgo] at hcall
      have hcall2 : (some (CallOut.many o, sx) : Option (CallOut α × CallState α)) =
          some (out, s1) := hcall
      obtain ⟨-, hs⟩ := Prod.ext_iff.1 (Option.some.inj hcall2)
      have hs2 : sx = s1 := hs
      rw [← hs2]
      exact exhaustiveGo_frame c.transform (List.range c.rep) s [] o sx hgo j
        (by rw [List.mem_range]; omega)

/-- C6 witness: the randomized corrupt-slot call on a two-slot cache leaves
slot index 5 (≥ repeat) exactly as it was. -/
theorem c6_slot_bound_witness : npSave fsOneCorrupt 1 100 5 = fsOneCorrupt 5 := by
  have h := c6_slot_indices_bounded Nat cRand2 1 ⟨fsOneCorrupt, 0⟩ (CallOut.one 100)
    ⟨npSave fsOneCorrupt 1 100, 0 + 1⟩ (by decide) rfl
  exact h 5 (by decide)

/-- C7: a transform failure is re-raised by `check_trans` (it fails exactly
when the transform's invocation fails, and on success passes the transform's
value through unchanged — no placeholder), and a failing transform makes the
whole cache call fail in both modes (shown where a recomputation is needed:
randomized mode with a missing slot, exhaustive mode with slot 0 unloadable). -/
theorem c7_transform_failure_propagates :
    ∀ (α : Type) (c : CacheNPY α) (s : CallState α),
      (check_trans c.transform s = none ↔ c.transform s.calls = none) ∧
      (∀ (a : α) (s1 : CallState α), check_trans c.transform s = some (a, s1) →
        c.transform s.calls = some a ∧ s1.calls = s.calls + 1 ∧ s1.fs = s.fs) ∧
      (∀ rand : Nat, c.pick_randomly = true →
        (existsVec s.fs c.rep).all id = false →
        c.transform s.calls = none → cacheCall c rand s = none) ∧
      (∀ rand : Nat, c.pick_randomly = false → 0 < c.rep →
        npLoad (s.fs 0) = none →
        c.transform s.calls = none → cacheCall c rand s = none) := by
  intro α c s
  refine ⟨?_, ?_, ?_, ?_⟩
  · cases ht : c.transform s.calls with
    | none => simp [check_trans, ht]
    | some a => simp [check_trans, ht]
  · intro a s1 h
    cases ht : c.transform s.calls with
    | none => simp [check_trans, ht] at h
    | some b =>
      simp only [check_trans, ht] at h
      obtain ⟨h1, h2⟩ := Prod.ext_iff.1 (Option.some.inj h)
      have h1b : b = a := h1
      have h2b : ({ fs := s.fs, calls := s.calls + 1 } : CallState α) = s1 := h2
      refine ⟨congrArg some h1b, by rw [← h2b], by rw [← h2b]⟩
  · intro rand hp hall ht
    rw [cacheCall_rand_notall c rand s hp hall, pickRecompute_none _ _ _ ht]
  · intro rand hp hpos hload ht
    rw [cacheCall_exhaustive c rand s hp]
    obtain ⟨n, hn⟩ : ∃ n, c.rep = n + 1 := ⟨c.rep - 1, by omega⟩
    rw [hn, List.range_succ_eq_map, exhaustiveGo, hload]
    simp [check_trans, ht]

/-- C7 witness: `check_trans` fails iff the transform raises, passes a
successful value through with one invocation counted and no slot touched, and
a raising transform makes both a randomized and an exhaustive call fail. -/
theorem c7_failure_witness :
    (check_trans cRandF.transform ⟨fsOneMissing, 0⟩ = none ↔ trFailW 0 = none)
    ∧ (trW 0 = some 100 ∧ (1 : Nat) = 0 + 1 ∧ fsTwoValid = fsTwoValid)
    ∧ cacheCall cRandF 0 ⟨fsOneMissing, 0⟩ = none
    ∧ cacheCall cExhF 0 ⟨fsAllMissing, 0⟩ = none := by
  refine ⟨(c7_transform_failure_propagates Nat cRandF ⟨fsOneMissing, 0⟩).1, ?_, ?_, ?_⟩
  · exact (c7_transform_failure_propagates Nat cRand2 ⟨fsTwoValid, 0⟩).2.1 100
      ⟨fsTwoValid, 1⟩ rfl
  · exact (c7_transform_failure_propagates Nat cRandF ⟨fsOneMissing, 0⟩).2.2.1 0 rfl
      (by decide) rfl
  · exact (c7_transform_failure_propagates Nat cExhF ⟨fsAllMissing, 0⟩).2.2.2 0 rfl
      (by decide) rfl rfl

/-! ## Claims about the dataset iterator -/

/-- C8: for every enumerated item whose path splits into at least three
components, `ModelNet10.__getitem__` derives the label token as the
third-from-last path component of the item's path; the label transform is
applied to exactly that token. -/
theorem c8_label_is_third_from_last {β γ : Type} (m : ModelNet10 β γ) (index : Int)
    (img : String)
    (hfile : pyGetElem m.files index = some img)
    (hlen : 3 ≤ (pySplit img '/').length) :
    getitem m index =
      some (m.transform img,
        m.target_transform ((pySplit img '/').getD ((pySplit img '/').length - 3) "")) := by
  simp only [getitem, hfile, pyGetElem_neg3 (pySplit img '/') "" hlen]

/-- C8 witness: for the layout `root/chair/train/item1.ext` the derived label
token is `chair`. -/
theorem c8_label_witness :
    getitem exModel 0 = some ("root/chair/train/item1.ext", "chair") := by
  have h := c8_label_is_third_from_last exModel 0 "root/chair/train/item1.ext"
    (by decide) (by decide)
  exact h.trans (by decide)

/-- C9 counterexample: the index `-1` lies outside `[0, length())`, yet
`__getitem__` returns the last item's pair instead of reporting an error, so
"any out-of-range index is a reported error" is false as stated. -/
theorem c9_counterexample :
    ¬ (0 ≤ (-1 : Int) ∧ (-1 : Int) < (lenModelNet exModel : Int)) ∧
      getitem exModel (-1) = some ("root/chair/train/item1.ext", "chair") := by
  exact ⟨by decide, by decide⟩

/-- C9 amended: an index with `index ≥ length()` or `index < -length()` is a
reported error (`IndexError`), never silently clamped; in particular
`get(length())` reports an index-out-of-range error.  (Negative indices with
`-length() ≤ index < 0` do not error: they wrap, see C10.) -/
theorem c9_amended_out_of_range_error {β γ : Type} (m : ModelNet10 β γ) (index : Int)
    (h : (lenModelNet m : Int) ≤ index ∨ index < -(lenModelNet m : Int)) :
    getitem m index = none := by
  simp only [getitem, pyGetElem_none_of_out m.files index h]

/-- C9 amended witness: `get(length())` reports an index-out-of-range error on
the concrete one-item dataset. -/
theorem c9_amended_witness : getitem exModel (lenModelNet exModel) = none :=
  c9_amended_out_of_range_error exModel (lenModelNet exModel) (Or.inl (by decide))

/-- C10: a negative index with `-length() ≤ index < 0` is not an error at the
indexing step: `__getitem__` behaves exactly as on the wrapped position
`length() + index`. -/
theorem c10_negative_index_wraps {β γ : Type} (m : ModelNet10 β γ) (index : Int)
    (h1 : -(lenModelNet m : Int) ≤ index) (h2 : index < 0) :
    getitem m index = getitem m (index + lenModelNet m) := by
  unfold getitem
  rw [pyGetElem_neg_wrap m.files index h1 h2]
  rfl

/-- C10 witness: `get(-1)` on the one-item dataset equals `get(0)` and returns
that item's pair rather than an error. -/
theorem c10_negative_index_witness :
    getitem exModel (-1) = getitem exModel 0 ∧
      getitem exModel 0 = some ("root/chair/train/item1.ext", "chair") := by
  constructor
  · have h := c10_negative_index_wraps exModel (-1) (by decide) (by decide)
    exact h.trans (by norm_num [lenModelNet, exModel])
  · decide

end ModelnetSpec
